import Mathlib

/-!
Shallow embedding of the limiter DSP core of this repository
(`src/nodes/limiter/dsp/src/lib.rs`) and proofs about it.

Numeric model. An `f32` value is modelled by `F32`: NaN, a signed
infinity, or a finite value idealized as an exact real number. Rounding
and overflow of finite arithmetic are idealized away (finite results stay
finite and exact), while the NaN / infinity propagation of every
operation the source uses (`*`, `+`, `-`, `/`, `abs`, `max`, `<`, `>`,
`is_finite`, `exp`, `powf`) is modelled faithfully, except that a signed
zero is collapsed to `0`. The transcendental operations `exp` and `powf`
are modelled by their exact real counterparts `Real.exp` / `Real.rpow`.

Pointer model. The exported C functions receive raw pointers; a possibly
null pointer is modelled as an `Option`, and the interleaved sample
buffers as `List F32` (the slice built by `from_raw_parts` with length
`frames * channels`). `usize` values are modelled as `ℕ`; the
`saturating_mul` in the source differs from `ℕ` multiplication only
beyond `2^64`, where the source's subsequent slice indexing is out of
bounds anyway, so plain multiplication is used. `u32` fields are
modelled as `ℕ` (the code only compares them with `0` and stores `0`/`1`).
-/

inductive F32 where
  | nan : F32
  | inf : Bool → F32
  | fin : ℝ → F32

namespace F32

/-- Model of `f32::is_finite`. -/
def isFinite : F32 → Bool
  | fin _ => true
  | _ => false

/-- Model of `f32` multiplication: NaN propagates, `∞ * 0` is NaN,
infinities multiply by sign, finite values multiply exactly. -/
noncomputable def mul : F32 → F32 → F32
  | nan, _ => nan
  | _, nan => nan
  | inf s, inf t => inf (s == t)
  | inf s, fin y => if y = 0 then nan else if 0 < y then inf s else inf (!s)
  | fin x, inf t => if x = 0 then nan else if 0 < x then inf t else inf (!t)
  | fin x, fin y => fin (x * y)

/-- Model of `f32` addition. -/
noncomputable def add : F32 → F32 → F32
  | nan, _ => nan
  | _, nan => nan
  | inf s, inf t => if s = t then inf s else nan
  | inf s, fin _ => inf s
  | fin _, inf t => inf t
  | fin x, fin y => fin (x + y)

/-- Model of `f32` subtraction. -/
noncomputable def sub : F32 → F32 → F32
  | nan, _ => nan
  | _, nan => nan
  | inf s, inf t => if s = t then nan else inf s
  | inf s, fin _ => inf s
  | fin _, inf t => inf (!t)
  | fin x, fin y => fin (x - y)

/-- Model of `f32` division (as used by the source: `ceiling / peak` and
the coefficient computations). A finite value divided by an infinity is
`0`; division by zero gives a signed infinity (NaN for `0 / 0`). -/
noncomputable def div : F32 → F32 → F32
  | nan, _ => nan
  | _, nan => nan
  | inf _, inf _ => nan
  | inf s, fin y => if 0 ≤ y then inf s else inf (!s)
  | fin _, inf _ => fin 0
  | fin x, fin y =>
      if y = 0 then (if x = 0 then nan else inf (decide (0 < x)))
      else fin (x / y)

/-- Model of `f32::abs`. -/
noncomputable def fabs : F32 → F32
  | nan => nan
  | inf _ => inf true
  | fin x => fin |x|

/-- Model of `f32::max`: if one argument is NaN the other is returned. -/
noncomputable def fmax : F32 → F32 → F32
  | nan, b => b
  | a, nan => a
  | inf true, _ => inf true
  | _, inf true => inf true
  | inf false, b => b
  | a, inf false => a
  | fin x, fin y => fin (max x y)

/-- Model of the `f32` comparison `a < b` (false whenever NaN is involved). -/
noncomputable def flt : F32 → F32 → Bool
  | nan, _ => false
  | _, nan => false
  | inf false, inf false => false
  | inf false, _ => true
  | inf true, _ => false
  | fin _, inf true => true
  | fin _, inf false => false
  | fin x, fin y => decide (x < y)

/-- Model of the `f32` comparison `a > b`. -/
noncomputable def fgt (a b : F32) : Bool := flt b a

/-- Model of `f32::exp`, idealized as the exact real exponential. -/
noncomputable def fexp : F32 → F32
  | nan => nan
  | inf true => inf true
  | inf false => fin 0
  | fin x => fin (Real.exp x)

end F32

/-- Model of the `Limiter` struct of the source. -/
structure Limiter where
  ceiling_lin : F32
  makeup_lin : F32
  release_coeff : F32
  bypass : ℕ
  stereo_link : ℕ
  gain_linked : F32
  gain_ch0 : F32
  gain_ch1 : F32
  sample_rate_hz : F32

/-- Model of the source's `clamp`: `min` for non-finite `v`, otherwise
the value clamped into `[min, max]`. -/
noncomputable def clamp (v mn mx : F32) : F32 :=
  if v.isFinite = false then mn
  else if F32.flt v mn then mn
  else if F32.fgt v mx then mx
  else v

/-- Model of the source's `db_to_lin`: `(10.0_f32).powf(db / 20.0)`,
with `powf` idealized as the exact real power `Real.rpow`. -/
noncomputable def db_to_lin (db : F32) : F32 :=
  match F32.div db (F32.fin 20) with
  | F32.nan => F32.nan
  | F32.inf true => F32.inf true
  | F32.inf false => F32.fin 0
  | F32.fin x => F32.fin (Real.rpow 10 x)

/-- Model of the source's `release_coeff_for_ms`. -/
noncomputable def release_coeff_for_ms (release_ms sample_rate_hz : F32) : F32 :=
  let r_ms := clamp release_ms (F32.fin (1 / 10)) (F32.fin 5000)
  let r_sec := F32.div r_ms (F32.fin 1000)
  let n := F32.fmax (F32.mul r_sec sample_rate_hz) (F32.fin 1)
  F32.fexp (F32.div (F32.fin (-1)) n)

/-- Model of `limiter_new` (the construction of the boxed state; the
source assigns `release_coeff` twice with the identical value, which is
collapsed into the single field value here). -/
noncomputable def limiter_new (sample_rate_hz : F32) : Limiter :=
  { ceiling_lin := db_to_lin (F32.fin (-3 / 10))
    makeup_lin := F32.fin 1
    release_coeff := release_coeff_for_ms (F32.fin 120) sample_rate_hz
    bypass := 0
    stereo_link := 1
    gain_linked := F32.fin 1
    gain_ch0 := F32.fin 1
    gain_ch1 := F32.fin 1
    sample_rate_hz := sample_rate_hz }

/-- Model of the body of `limiter_set_params` on a dereferenced, valid
instance (the null-pointer guard lives in `limiter_set_params_api`). -/
noncomputable def limiter_set_params (l : Limiter)
    (ceiling_db release_ms makeup_db : F32) (bypass stereo_link : ℕ) : Limiter :=
  { l with
    ceiling_lin := db_to_lin (clamp ceiling_db (F32.fin (-60)) (F32.fin 0))
    makeup_lin := db_to_lin (clamp makeup_db (F32.fin (-24)) (F32.fin 24))
    release_coeff := release_coeff_for_ms release_ms l.sample_rate_hz
    bypass := if bypass ≠ 0 then 1 else 0
    stereo_link := if stereo_link ≠ 0 then 1 else 0 }

/-- One iteration of the stereo-linked loop of
`limiter_process_interleaved` (source lines 113-122): returns the updated
linked gain and the two output samples of the frame. -/
noncomputable def linkedStep (ceiling makeup rel g x0 x1 : F32) : F32 × F32 × F32 :=
  let l0 := F32.mul x0 makeup
  let r0 := F32.mul x1 makeup
  let peak := F32.fmax (F32.fabs l0) (F32.fabs r0)
  let target := if F32.fgt peak ceiling then F32.div ceiling peak else F32.fin 1
  let g2 := if F32.flt target g then target
            else F32.add (F32.mul g rel) (F32.mul (F32.sub (F32.fin 1) rel) target)
  (g2, F32.mul l0 g2, F32.mul r0 g2)

/-- The stereo-linked loop over `frames` frames, reading consecutive
sample pairs from the input slice. -/
noncomputable def linkedLoop (ceiling makeup rel : F32) :
    ℕ → F32 → List F32 → F32 × List F32
  | 0, g, _ => (g, [])
  | frames + 1, g, inp =>
    let s := linkedStep ceiling makeup rel g (inp.getD 0 (F32.fin 0)) (inp.getD 1 (F32.fin 0))
    let rest := linkedLoop ceiling makeup rel frames s.1 (inp.drop 2)
    (rest.1, s.2.1 :: s.2.2 :: rest.2)

/-- One iteration of the mono loop of `limiter_process_interleaved`
(source lines 132-138). -/
noncomputable def monoStep (ceiling makeup rel g x : F32) : F32 × F32 :=
  let v := F32.mul x makeup
  let a := F32.fabs v
  let target := if F32.fgt a ceiling then F32.div ceiling a else F32.fin 1
  let g2 := if F32.flt target g then target
            else F32.add (F32.mul g rel) (F32.mul (F32.sub (F32.fin 1) rel) target)
  (g2, F32.mul v g2)

/-- The mono loop over `frames` frames. -/
noncomputable def monoLoop (ceiling makeup rel : F32) :
    ℕ → F32 → List F32 → F32 × List F32
  | 0, g, _ => (g, [])
  | frames + 1, g, inp =>
    let s := monoStep ceiling makeup rel g (inp.getD 0 (F32.fin 0))
    let rest := monoLoop ceiling makeup rel frames s.1 (inp.drop 1)
    (rest.1, s.2 :: rest.2)

/-- One iteration of the independent-stereo loop of
`limiter_process_interleaved` (source lines 143-158): both per-channel
gains are updated from their own channel's peak. -/
noncomputable def indepStep (ceiling makeup rel g0 g1 x0 x1 : F32) :
    (F32 × F32) × F32 × F32 :=
  let lv := F32.mul x0 makeup
  let rv := F32.mul x1 makeup
  let la := F32.fabs lv
  let ra := F32.fabs rv
  let lt1 := if F32.fgt la ceiling then F32.div ceiling la else F32.fin 1
  let rt1 := if F32.fgt ra ceiling then F32.div ceiling ra else F32.fin 1
  let g0n := if F32.flt lt1 g0 then lt1
             else F32.add (F32.mul g0 rel) (F32.mul (F32.sub (F32.fin 1) rel) lt1)
  let g1n := if F32.flt rt1 g1 then rt1
             else F32.add (F32.mul g1 rel) (F32.mul (F32.sub (F32.fin 1) rel) rt1)
  ((g0n, g1n), F32.mul lv g0n, F32.mul rv g1n)

/-- The independent-stereo loop over `frames` frames. -/
noncomputable def indepLoop (ceiling makeup rel : F32) :
    ℕ → F32 × F32 → List F32 → (F32 × F32) × List F32
  | 0, gs, _ => (gs, [])
  | frames + 1, gs, inp =>
    let s := indepStep ceiling makeup rel gs.1 gs.2 (inp.getD 0 (F32.fin 0)) (inp.getD 1 (F32.fin 0))
    let rest := indepLoop ceiling makeup rel frames s.1 (inp.drop 2)
    (rest.1, s.2.1 :: s.2.2 :: rest.2)

/-- Model of the body of `limiter_process_interleaved` on a valid
instance and valid buffers: returns the limiter state after the call and
the contents written to the output slice. `input` models the input
slice; as in the source, exactly `frames * channels.min(2).max(1)`
samples are read. -/
noncomputable def limiter_process_interleaved (l : Limiter)
    (input : List F32) (frames channels : ℕ) : Limiter × List F32 :=
  let ch := max (min channels 2) 1
  let n := frames * ch
  let inp := input.take n
  if l.bypass ≠ 0 then (l, inp)
  else if l.stereo_link ≠ 0 ∧ ch = 2 then
    let r := linkedLoop l.ceiling_lin l.makeup_lin l.release_coeff frames l.gain_linked inp
    ({ l with gain_linked := r.1 }, r.2)
  else if ch = 1 then
    let r := monoLoop l.ceiling_lin l.makeup_lin l.release_coeff frames l.gain_ch0 inp
    ({ l with gain_ch0 := r.1 }, r.2)
  else
    let r := indepLoop l.ceiling_lin l.makeup_lin l.release_coeff frames (l.gain_ch0, l.gain_ch1) inp
    ({ l with gain_ch0 := r.1.1, gain_ch1 := r.1.2 }, r.2)

/-- Model of the exported `limiter_process_interleaved` including the
null-pointer guard: a null instance or buffer pointer makes the call a
no-op (state and output buffer are left untouched). -/
noncomputable def limiter_process_api (ptr : Option Limiter)
    (in_ptr out_ptr : Option (List F32)) (frames channels : ℕ) :
    Option Limiter × Option (List F32) :=
  match ptr, in_ptr, out_ptr with
  | some l, some input, some _ =>
    let r := limiter_process_interleaved l input frames channels
    (some r.1, some r.2)
  | _, _, _ => (ptr, out_ptr)

/-- Model of the exported `limiter_set_params` including the
null-pointer guard. -/
noncomputable def limiter_set_params_api (ptr : Option Limiter)
    (ceiling_db release_ms makeup_db : F32) (bypass stereo_link : ℕ) :
    Option Limiter :=
  match ptr with
  | none => none
  | some l => some (limiter_set_params l ceiling_db release_ms makeup_db bypass stereo_link)

/-- Model of `limiter_free`: a null pointer is a no-op, otherwise the
instance is dropped. The `Option Limiter` is the allocation the pointer
refers to (`none` = null). -/
def limiter_free (ptr : Option Limiter) : Option Limiter :=
  match ptr with
  | none => none
  | some _ => none

/-- Model of `wasm_free`: the allocation is modelled by its size. A null
pointer or a zero byte count is a no-op, otherwise the buffer is
deallocated. -/
def wasm_free (ptr : Option ℕ) (bytes : ℕ) : Option ℕ :=
  if ptr = none ∨ bytes = 0 then ptr else none

/-- Real-level value of the per-frame limiting target
`if peak > ceiling { ceiling / peak } else { 1.0 }` for a finite peak `p`. -/
noncomputable def targetReal (c p : ℝ) : ℝ := if c < p then c / p else 1

/-- Real-level value of the gain recurrence
`if target < g { target } else { g * rel + (1.0 - rel) * target }`. -/
noncomputable def gainUpdate (rr g t : ℝ) : ℝ := if t < g then t else g * rr + (1 - rr) * t

@[simp] theorem F32.isFinite_fin (x : ℝ) : (F32.fin x).isFinite = true := rfl

@[simp] theorem F32.isFinite_nan : F32.nan.isFinite = false := rfl

@[simp] theorem F32.isFinite_inf (b : Bool) : (F32.inf b).isFinite = false := rfl

@[simp] theorem F32.mul_fin_fin (x y : ℝ) : F32.mul (F32.fin x) (F32.fin y) = F32.fin (x * y) := rfl

@[simp] theorem F32.add_fin_fin (x y : ℝ) : F32.add (F32.fin x) (F32.fin y) = F32.fin (x + y) := rfl

@[simp] theorem F32.sub_fin_fin (x y : ℝ) : F32.sub (F32.fin x) (F32.fin y) = F32.fin (x - y) := rfl

@[simp] theorem F32.fabs_fin (x : ℝ) : F32.fabs (F32.fin x) = F32.fin |x| := rfl

@[simp] theorem F32.fmax_fin_fin (x y : ℝ) : F32.fmax (F32.fin x) (F32.fin y) = F32.fin (max x y) := rfl

@[simp] theorem F32.flt_fin_fin (x y : ℝ) : F32.flt (F32.fin x) (F32.fin y) = decide (x < y) := rfl

@[simp] theorem F32.fgt_fin_fin (x y : ℝ) : F32.fgt (F32.fin x) (F32.fin y) = decide (y < x) := rfl

@[simp] theorem F32.fexp_fin (x : ℝ) : F32.fexp (F32.fin x) = F32.fin (Real.exp x) := rfl

theorem F32.div_fin_fin (x y : ℝ) (hy : y ≠ 0) :
    F32.div (F32.fin x) (F32.fin y) = F32.fin (x / y) := by
  simp [F32.div, hy]

theorem F32.isFinite_iff (x : F32) : x.isFinite = true ↔ ∃ u : ℝ, x = F32.fin u := by
  cases x <;> simp [F32.isFinite]

theorem clamp_fin_id (v mn mx : ℝ) (h1 : mn ≤ v) (h2 : v ≤ mx) :
    clamp (F32.fin v) (F32.fin mn) (F32.fin mx) = F32.fin v := by
  unfold clamp
  rw [if_neg (by simp), if_neg (by simpa using not_lt.2 h1), if_neg (by simpa using not_lt.2 h2)]

/-- Claim C9: the source's `clamp` returns `min` for NaN and for both
infinities; a finite value inside `[min, max]` is returned unchanged; a
finite value outside the range maps to the nearer bound. -/
theorem C9_clamp_spec (v mn mx : ℝ) (b : Bool) (hle : mn ≤ mx) :
    clamp F32.nan (F32.fin mn) (F32.fin mx) = F32.fin mn ∧
    clamp (F32.inf b) (F32.fin mn) (F32.fin mx) = F32.fin mn ∧
    (mn ≤ v → v ≤ mx → clamp (F32.fin v) (F32.fin mn) (F32.fin mx) = F32.fin v) ∧
    (v < mn → clamp (F32.fin v) (F32.fin mn) (F32.fin mx) = F32.fin mn) ∧
    (mx < v → clamp (F32.fin v) (F32.fin mn) (F32.fin mx) = F32.fin mx) := by
  refine ⟨rfl, by cases b <;> rfl, ?_, ?_, ?_⟩
  · intro h1 h2
    simp [clamp, not_lt.2 h1, not_lt.2 h2]
  · intro h
    simp [clamp, h]
  · intro h
    simp [clamp, h, not_lt.2 (hle.trans h.le)]

theorem C9_clamp_spec_witness :
    clamp F32.nan (F32.fin 0) (F32.fin 10) = F32.fin 0 ∧
    clamp (F32.inf true) (F32.fin 0) (F32.fin 10) = F32.fin 0 ∧
    clamp (F32.fin 5) (F32.fin 0) (F32.fin 10) = F32.fin 5 ∧
    clamp (F32.fin (-3)) (F32.fin 0) (F32.fin 10) = F32.fin 0 ∧
    clamp (F32.fin 11) (F32.fin 0) (F32.fin 10) = F32.fin 10 := by
  have h := C9_clamp_spec 5 0 10 true (by norm_num)
  have h' := C9_clamp_spec (-3) 0 10 true (by norm_num)
  have h'' := C9_clamp_spec 11 0 10 true (by norm_num)
  exact ⟨h.1, h.2.1, h.2.2.1 (by norm_num) (by norm_num), h'.2.2.2.1 (by norm_num),
    h''.2.2.2.2 (by norm_num)⟩

/-- Claim C8: `process` clamps the channel count into `{1, 2}`:
`channel_count = 0` behaves exactly as `1`, and `channel_count = 7`
behaves exactly as `2`, for every state and every pair of buffers. -/
theorem C8_channel_clamp (l : Limiter) (input : List F32) (frames : ℕ) :
    limiter_process_interleaved l input frames 0 = limiter_process_interleaved l input frames 1 ∧
    limiter_process_interleaved l input frames 7 = limiter_process_interleaved l input frames 2 :=
  ⟨rfl, rfl⟩

/-- Claim C2: with `bypass` set, `process` copies the input buffer to the
output buffer bit-exactly and leaves the whole limiter state (gains
included) unchanged. -/
theorem C2_bypass_identity (l : Limiter) (input : List F32) (frames channels : ℕ)
    (hb : l.bypass ≠ 0) (hlen : input.length = frames * max (min channels 2) 1) :
    limiter_process_interleaved l input frames channels = (l, input) := by
  simp only [limiter_process_interleaved]
  rw [if_pos hb, ← hlen, List.take_length]

theorem C2_bypass_identity_witness :
    limiter_process_interleaved
      { ceiling_lin := F32.fin 1, makeup_lin := F32.fin 1, release_coeff := F32.fin (1 / 2),
        bypass := 1, stereo_link := 1, gain_linked := F32.fin 1, gain_ch0 := F32.fin 1,
        gain_ch1 := F32.fin 1, sample_rate_hz := F32.fin 48000 }
      [F32.fin 2, F32.fin 3] 1 2 =
    ({ ceiling_lin := F32.fin 1, makeup_lin := F32.fin 1, release_coeff := F32.fin (1 / 2),
       bypass := 1, stereo_link := 1, gain_linked := F32.fin 1, gain_ch0 := F32.fin 1,
       gain_ch1 := F32.fin 1, sample_rate_hz := F32.fin 48000 }, [F32.fin 2, F32.fin 3]) :=
  C2_bypass_identity _ _ 1 2 (by decide) (by decide)

/-- Claim C6: `set_params` stores the clamped, decibel-converted ceiling
and makeup gains, recomputes the release coefficient from the incoming
release time and the construction-time sample rate stored in the
instance, normalizes both flags to `0`/`1`, leaves the gain state and the
sample rate untouched, and is total (it never rejects an input). -/
theorem C6_set_params (l : Limiter) (ceiling_db release_ms makeup_db : F32)
    (bypass stereo_link : ℕ) :
    (limiter_set_params l ceiling_db release_ms makeup_db bypass stereo_link).ceiling_lin =
      db_to_lin (clamp ceiling_db (F32.fin (-60)) (F32.fin 0)) ∧
    (limiter_set_params l ceiling_db release_ms makeup_db bypass stereo_link).makeup_lin =
      db_to_lin (clamp makeup_db (F32.fin (-24)) (F32.fin 24)) ∧
    (limiter_set_params l ceiling_db release_ms makeup_db bypass stereo_link).release_coeff =
      release_coeff_for_ms release_ms l.sample_rate_hz ∧
    (limiter_set_params l ceiling_db release_ms makeup_db bypass stereo_link).bypass =
      (if bypass ≠ 0 then 1 else 0) ∧
    (limiter_set_params l ceiling_db release_ms makeup_db bypass stereo_link).stereo_link =
      (if stereo_link ≠ 0 then 1 else 0) ∧
    (limiter_set_params l ceiling_db release_ms makeup_db bypass stereo_link).gain_linked =
      l.gain_linked ∧
    (limiter_set_params l ceiling_db release_ms makeup_db bypass stereo_link).gain_ch0 =
      l.gain_ch0 ∧
    (limiter_set_params l ceiling_db release_ms makeup_db bypass stereo_link).gain_ch1 =
      l.gain_ch1 ∧
    (limiter_set_params l ceiling_db release_ms makeup_db bypass stereo_link).sample_rate_hz =
      l.sample_rate_hz :=
  ⟨rfl, rfl, rfl, rfl, rfl, rfl, rfl, rfl, rfl⟩

/-- Claim C7: a null instance handle or a null buffer pointer makes each
exported operation (`process`, `set_params`, `destroy`, `free_bytes`) a
silent no-op: nothing is mutated and no output is written. -/
theorem C7_null_noop (ptr : Option Limiter) (in_ptr out_ptr : Option (List F32))
    (frames channels : ℕ) (cdb rms mdb : F32) (bp sl bytes : ℕ)
    (h : ptr = none ∨ in_ptr = none ∨ out_ptr = none) :
    limiter_process_api ptr in_ptr out_ptr frames channels = (ptr, out_ptr) ∧
    limiter_set_params_api none cdb rms mdb bp sl = none ∧
    limiter_free none = none ∧
    wasm_free none bytes = none := by
  refine ⟨?_, rfl, rfl, by simp [wasm_free]⟩
  rcases ptr with _ | l
  · rfl
  · rcases in_ptr with _ | i
    · rfl
    · rcases out_ptr with _ | o
      · rfl
      · rcases h with h | h | h <;> simp_all

theorem C7_null_noop_witness :
    limiter_process_api none none none 0 0 = (none, none) ∧
    limiter_set_params_api none F32.nan F32.nan F32.nan 0 0 = none ∧
    limiter_free none = none ∧
    wasm_free none 0 = none :=
  C7_null_noop none none none 0 0 F32.nan F32.nan F32.nan 0 0 0 (Or.inl rfl)

/-- Claim C5: for every release time in `[0.1, 5000]` ms and every sample
rate of at least 1 Hz, the computed release coefficient
`exp(-1 / max(1, seconds * sample_rate_hz))` lies strictly inside `(0, 1)`. -/
theorem C5_release_coeff_range (r s : ℝ) (h1 : 1 / 10 ≤ r) (h2 : r ≤ 5000) (h3 : 1 ≤ s) :
    ∃ x : ℝ, release_coeff_for_ms (F32.fin r) (F32.fin s) = F32.fin x ∧ 0 < x ∧ x < 1 := by
  have hn : (0 : ℝ) < max (r / 1000 * s) 1 := lt_max_of_lt_right one_pos
  refine ⟨Real.exp (-1 / max (r / 1000 * s) 1), ?_, Real.exp_pos _,
    Real.exp_lt_one_iff.2 (div_neg_of_neg_of_pos (by norm_num) hn)⟩
  simp only [release_coeff_for_ms, clamp_fin_id r (1 / 10) 5000 h1 h2]
  rw [F32.div_fin_fin r 1000 (by norm_num), F32.mul_fin_fin, F32.fmax_fin_fin,
      F32.div_fin_fin _ _ hn.ne', F32.fexp_fin]

theorem C5_release_coeff_range_witness :
    ∃ x : ℝ, release_coeff_for_ms (F32.fin 120) (F32.fin 48000) = F32.fin x ∧ 0 < x ∧ x < 1 :=
  C5_release_coeff_range 120 48000 (by norm_num) (by norm_num) (by norm_num)

/-- Claim C10: a non-bypassed `process` call never touches the
configuration fields or the sample rate, and mutates only the gain
field(s) of the selected path: the stereo-linked path leaves `gain_ch0`
and `gain_ch1` alone, the mono path leaves `gain_linked` and `gain_ch1`
alone, and the independent-stereo path leaves `gain_linked` alone. -/
theorem C10_frame_effect (l : Limiter) (input : List F32) (frames channels : ℕ)
    (hb : l.bypass = 0) :
    ((limiter_process_interleaved l input frames channels).1.ceiling_lin = l.ceiling_lin ∧
     (limiter_process_interleaved l input frames channels).1.makeup_lin = l.makeup_lin ∧
     (limiter_process_interleaved l input frames channels).1.release_coeff = l.release_coeff ∧
     (limiter_process_interleaved l input frames channels).1.bypass = l.bypass ∧
     (limiter_process_interleaved l input frames channels).1.stereo_link = l.stereo_link ∧
     (limiter_process_interleaved l input frames channels).1.sample_rate_hz = l.sample_rate_hz) ∧
    (l.stereo_link ≠ 0 → max (min channels 2) 1 = 2 →
      (limiter_process_interleaved l input frames channels).1.gain_ch0 = l.gain_ch0 ∧
      (limiter_process_interleaved l input frames channels).1.gain_ch1 = l.gain_ch1) ∧
    (max (min channels 2) 1 = 1 →
      (limiter_process_interleaved l input frames channels).1.gain_linked = l.gain_linked ∧
      (limiter_process_interleaved l input frames channels).1.gain_ch1 = l.gain_ch1) ∧
    (l.stereo_link = 0 → max (min channels 2) 1 = 2 →
      (limiter_process_interleaved l input frames channels).1.gain_linked = l.gain_linked) := by
  simp only [limiter_process_interleaved]
  rw [if_neg (by simp [hb])]
  by_cases hs : l.stereo_link ≠ 0 ∧ max (min channels 2) 1 = 2
  · rw [if_pos hs]
    refine ⟨⟨rfl, rfl, rfl, rfl, rfl, rfl⟩, fun _ _ => ⟨rfl, rfl⟩, ?_, ?_⟩
    · intro h1
      rw [hs.2] at h1
      exact absurd h1 (by norm_num)
    · intro h0
      exact absurd h0 (by simpa using hs.1)
  · rw [if_neg hs]
    by_cases hc : max (min channels 2) 1 = 1
    · rw [if_pos hc]
      refine ⟨⟨rfl, rfl, rfl, rfl, rfl, rfl⟩, ?_, fun _ => ⟨rfl, rfl⟩, fun _ _ => rfl⟩
      intro _ h2
      rw [hc] at h2
      exact absurd h2 (by norm_num)
    · rw [if_neg hc]
      exact ⟨⟨rfl, rfl, rfl, rfl, rfl, rfl⟩, fun h1 h2 => absurd ⟨h1, h2⟩ hs,
        fun h1 => absurd h1 hc, fun _ _ => rfl⟩

theorem C10_frame_effect_witness :
    (limiter_process_interleaved (limiter_new (F32.fin 48000)) [F32.fin 0, F32.fin 0] 1 2).1.gain_ch0 =
      (limiter_new (F32.fin 48000)).gain_ch0 ∧
    (limiter_process_interleaved (limiter_new (F32.fin 48000)) [F32.fin 0, F32.fin 0] 1 2).1.sample_rate_hz =
      (limiter_new (F32.fin 48000)).sample_rate_hz := by
  have h := C10_frame_effect (limiter_new (F32.fin 48000)) [F32.fin 0, F32.fin 0] 1 2 rfl
  exact ⟨(h.2.1 (by simp [limiter_new]) (by norm_num)).1, h.1.2.2.2.2.2⟩

theorem target_fin_eq (c p : ℝ) (hc : 0 < c) :
    (if F32.fgt (F32.fin p) (F32.fin c) then F32.div (F32.fin c) (F32.fin p) else F32.fin 1) =
      F32.fin (targetReal c p) := by
  by_cases hp : c < p
  · rw [if_pos (by simpa using hp), F32.div_fin_fin c p (ne_of_gt (hc.trans hp)), targetReal,
      if_pos hp]
  · rw [if_neg (by simpa using hp), targetReal, if_neg hp]

theorem gupd_fin_eq (rr g t : ℝ) :
    (if F32.flt (F32.fin t) (F32.fin g) then F32.fin t
     else F32.add (F32.fin (g * rr))
       (F32.mul (F32.sub (F32.fin 1) (F32.fin rr)) (F32.fin t))) = F32.fin (gainUpdate rr g t) := by
  by_cases ht : t < g
  · rw [if_pos (by simpa using ht), gainUpdate, if_pos ht]
  · rw [if_neg (by simpa using ht)]
    simp [gainUpdate, if_neg ht]

theorem linkedStep_fin_eq (c m rr g u v : ℝ) (hc : 0 < c) :
    linkedStep (F32.fin c) (F32.fin m) (F32.fin rr) (F32.fin g) (F32.fin u) (F32.fin v) =
      (F32.fin (gainUpdate rr g (targetReal c (max |u * m| |v * m|))),
       F32.fin (u * m * gainUpdate rr g (targetReal c (max |u * m| |v * m|))),
       F32.fin (v * m * gainUpdate rr g (targetReal c (max |u * m| |v * m|)))) := by
  simp only [linkedStep, F32.mul_fin_fin, F32.fabs_fin, F32.fmax_fin_fin]
  rw [target_fin_eq c (max (|u * m|) (|v * m|)) hc, gupd_fin_eq]
  simp

theorem monoStep_fin_eq (c m rr g u : ℝ) (hc : 0 < c) :
    monoStep (F32.fin c) (F32.fin m) (F32.fin rr) (F32.fin g) (F32.fin u) =
      (F32.fin (gainUpdate rr g (targetReal c |u * m|)),
       F32.fin (u * m * gainUpdate rr g (targetReal c |u * m|))) := by
  simp only [monoStep, F32.mul_fin_fin, F32.fabs_fin]
  rw [target_fin_eq c (|u * m|) hc, gupd_fin_eq]
  simp

theorem indepStep_fin_eq (c m rr g0 g1 u v : ℝ) (hc : 0 < c) :
    indepStep (F32.fin c) (F32.fin m) (F32.fin rr) (F32.fin g0) (F32.fin g1)
        (F32.fin u) (F32.fin v) =
      ((F32.fin (gainUpdate rr g0 (targetReal c |u * m|)),
        F32.fin (gainUpdate rr g1 (targetReal c |v * m|))),
       F32.fin (u * m * gainUpdate rr g0 (targetReal c |u * m|)),
       F32.fin (v * m * gainUpdate rr g1 (targetReal c |v * m|))) := by
  simp only [indepStep, F32.mul_fin_fin, F32.fabs_fin]
  rw [target_fin_eq c (|u * m|) hc, target_fin_eq c (|v * m|) hc,
    gupd_fin_eq rr g0 (targetReal c (|u * m|)), gupd_fin_eq rr g1 (targetReal c (|v * m|))]
  simp

theorem targetReal_mem (c p : ℝ) (hc : 0 < c) : 0 < targetReal c p ∧ targetReal c p ≤ 1 := by
  unfold targetReal
  by_cases h : c < p
  · rw [if_pos h]
    have hp0 : 0 < p := hc.trans h
    exact ⟨div_pos hc hp0, ((div_lt_one hp0).2 h).le⟩
  · rw [if_neg h]
    exact ⟨one_pos, le_refl 1⟩

theorem gainUpdate_mem (rr g t : ℝ) (hr0 : 0 < rr) (hr1 : rr < 1) (hg0 : 0 < g) (hg1 : g ≤ 1)
    (ht0 : 0 < t) (ht1 : t ≤ 1) : 0 < gainUpdate rr g t ∧ gainUpdate rr g t ≤ 1 := by
  unfold gainUpdate
  by_cases h : t < g
  · rw [if_pos h]
    exact ⟨ht0, ht1⟩
  · rw [if_neg h]
    constructor
    · have hx := mul_pos hg0 hr0
      have hy := mul_pos (by linarith : (0 : ℝ) < 1 - rr) ht0
      linarith
    · have hx : g * rr ≤ 1 * rr := mul_le_mul_of_nonneg_right hg1 hr0.le
      have hy : (1 - rr) * t ≤ (1 - rr) * 1 := mul_le_mul_of_nonneg_left ht1 (by linarith)
      linarith

theorem isFinite_getD (inp : List F32) (i : ℕ) (h : ∀ x ∈ inp, x.isFinite = true) :
    (inp.getD i (F32.fin 0)).isFinite = true := by
  induction inp generalizing i with
  | nil => simp [List.getD]
  | cons x xs ih =>
    cases i with
    | zero =>
      simp only [List.getD_cons_zero]
      exact h x (by simp)
    | succ j =>
      simp only [List.getD_cons_succ]
      exact ih j (fun y hy => h y (by simp [hy]))

theorem linkedLoop_gain_mem (c m rr : ℝ) (hc : 0 < c) (hr0 : 0 < rr) (hr1 : rr < 1)
    (frames : ℕ) :
    ∀ (g : ℝ) (inp : List F32), 0 < g → g ≤ 1 → (∀ x ∈ inp, x.isFinite = true) →
      ∃ a : ℝ,
        (linkedLoop (F32.fin c) (F32.fin m) (F32.fin rr) frames (F32.fin g) inp).1 = F32.fin a ∧
        0 < a ∧ a ≤ 1 := by
  induction frames with
  | zero =>
    intro g inp hg0 hg1 _
    exact ⟨g, rfl, hg0, hg1⟩
  | succ k ih =>
    intro g inp hg0 hg1 hfin
    obtain ⟨u, hu⟩ := (F32.isFinite_iff _).1 (isFinite_getD inp 0 hfin)
    obtain ⟨v, hv⟩ := (F32.isFinite_iff _).1 (isFinite_getD inp 1 hfin)
    have htm := targetReal_mem c (max |u * m| |v * m|) hc
    have hgm := gainUpdate_mem rr g _ hr0 hr1 hg0 hg1 htm.1 htm.2
    obtain ⟨a, ha, ha0, ha1⟩ := ih (gainUpdate rr g (targetReal c (max |u * m| |v * m|)))
      (inp.drop 2) hgm.1 hgm.2 (fun y hy => hfin y (List.drop_subset _ _ hy))
    refine ⟨a, ?_, ha0, ha1⟩
    simp only [linkedLoop, hu, hv, linkedStep_fin_eq c m rr g u v hc]
    exact ha

theorem monoLoop_gain_mem (c m rr : ℝ) (hc : 0 < c) (hr0 : 0 < rr) (hr1 : rr < 1)
    (frames : ℕ) :
    ∀ (g : ℝ) (inp : List F32), 0 < g → g ≤ 1 → (∀ x ∈ inp, x.isFinite = true) →
      ∃ a : ℝ,
        (monoLoop (F32.fin c) (F32.fin m) (F32.fin rr) frames (F32.fin g) inp).1 = F32.fin a ∧
        0 < a ∧ a ≤ 1 := by
  induction frames with
  | zero =>
    intro g inp hg0 hg1 _
    exact ⟨g, rfl, hg0, hg1⟩
  | succ k ih =>
    intro g inp hg0 hg1 hfin
    obtain ⟨u, hu⟩ := (F32.isFinite_iff _).1 (isFinite_getD inp 0 hfin)
    have htm := targetReal_mem c (|u * m|) hc
    have hgm := gainUpdate_mem rr g _ hr0 hr1 hg0 hg1 htm.1 htm.2
    obtain ⟨a, ha, ha0, ha1⟩ := ih (gainUpdate rr g (targetReal c (|u * m|)))
      (inp.drop 1) hgm.1 hgm.2 (fun y hy => hfin y (List.drop_subset _ _ hy))
    refine ⟨a, ?_, ha0, ha1⟩
    simp only [monoLoop, hu, monoStep_fin_eq c m rr g u hc]
    exact ha

theorem indepLoop_gain_mem (c m rr : ℝ) (hc : 0 < c) (hr0 : 0 < rr) (hr1 : rr < 1)
    (frames : ℕ) :
    ∀ (g0 g1 : ℝ) (inp : List F32), 0 < g0 → g0 ≤ 1 → 0 < g1 → g1 ≤ 1 →
      (∀ x ∈ inp, x.isFinite = true) →
      ∃ a b : ℝ,
        (indepLoop (F32.fin c) (F32.fin m) (F32.fin rr) frames (F32.fin g0, F32.fin g1) inp).1 =
          (F32.fin a, F32.fin b) ∧ 0 < a ∧ a ≤ 1 ∧ 0 < b ∧ b ≤ 1 := by
  induction frames with
  | zero =>
    intro g0 g1 inp hg00 hg01 hg10 hg11 _
    exact ⟨g0, g1, rfl, hg00, hg01, hg10, hg11⟩
  | succ k ih =>
    intro g0 g1 inp hg00 hg01 hg10 hg11 hfin
    obtain ⟨u, hu⟩ := (F32.isFinite_iff _).1 (isFinite_getD inp 0 hfin)
    obtain ⟨v, hv⟩ := (F32.isFinite_iff _).1 (isFinite_getD inp 1 hfin)
    have htm0 := targetReal_mem c (|u * m|) hc
    have htm1 := targetReal_mem c (|v * m|) hc
    have hgm0 := gainUpdate_mem rr g0 _ hr0 hr1 hg00 hg01 htm0.1 htm0.2
    have hgm1 := gainUpdate_mem rr g1 _ hr0 hr1 hg10 hg11 htm1.1 htm1.2
    obtain ⟨a, b, hab, ha0, ha1, hb0, hb1⟩ := ih (gainUpdate rr g0 (targetReal c (|u * m|)))
      (gainUpdate rr g1 (targetReal c (|v * m|))) (inp.drop 2) hgm0.1 hgm0.2 hgm1.1 hgm1.2
      (fun y hy => hfin y (List.drop_subset _ _ hy))
    refine ⟨a, b, ?_, ha0, ha1, hb0, hb1⟩
    simp only [indepLoop, hu, hv, indepStep_fin_eq c m rr g0 g1 u v hc]
    exact hab

theorem target_fin_eq_of_le (c p : ℝ) (hp : p ≤ c) :
    (if F32.fgt (F32.fin p) (F32.fin c) then F32.div (F32.fin c) (F32.fin p) else F32.fin 1) =
      F32.fin 1 := by
  rw [if_neg (by simpa using not_lt.2 hp)]

theorem F32.mul_inf_fin_pos (s : Bool) (y : ℝ) (hy : 0 < y) :
    F32.mul (F32.inf s) (F32.fin y) = F32.inf s := by
  simp [F32.mul, hy.ne', hy]

theorem F32.mul_inf_true_one : F32.mul (F32.inf true) (F32.fin 1) = F32.inf true :=
  F32.mul_inf_fin_pos true 1 one_pos

@[simp] theorem F32.fabs_inf (s : Bool) : F32.fabs (F32.inf s) = F32.inf true := rfl

theorem F32.fmax_inf_true_left (b : F32) : F32.fmax (F32.inf true) b = F32.inf true := by
  cases b with
  | nan => rfl
  | inf s => cases s <;> rfl
  | fin x => rfl

@[simp] theorem F32.flt_fin_inf_true (x : ℝ) : F32.flt (F32.fin x) (F32.inf true) = true := rfl

@[simp] theorem F32.div_fin_inf (x : ℝ) (s : Bool) :
    F32.div (F32.fin x) (F32.inf s) = F32.fin 0 := rfl

theorem linkedStep_inf_sets_gain_zero (c : ℝ) (rel : F32) :
    (linkedStep (F32.fin c) (F32.fin 1) rel (F32.fin 1) (F32.inf true) (F32.inf true)).1 =
      F32.fin 0 := by
  simp only [linkedStep, F32.mul_inf_true_one, F32.fabs_inf, F32.fmax_inf_true_left]
  rw [show F32.fgt (F32.inf true) (F32.fin c) = true from rfl]
  simp only [if_true, F32.div_fin_inf]
  rw [show F32.flt (F32.fin 0) (F32.fin 1) = true from by simp]
  simp

theorem linkedStep_under_ceiling (c m rr g u v : ℝ) (h0 : |u * m| ≤ c) (h1 : |v * m| ≤ c)
    (hg : ¬ (1 : ℝ) < g) :
    (linkedStep (F32.fin c) (F32.fin m) (F32.fin rr) (F32.fin g) (F32.fin u) (F32.fin v)).1 =
      F32.fin (g * rr + (1 - rr)) := by
  simp only [linkedStep, F32.mul_fin_fin, F32.fabs_fin, F32.fmax_fin_fin]
  rw [target_fin_eq_of_le c (max (|u * m|) (|v * m|)) (max_le h0 h1),
    if_neg (by simpa using hg)]
  simp

theorem monoStep_under_ceiling (c m rr g u : ℝ) (hu : |u * m| ≤ c) (hg : ¬ (1 : ℝ) < g) :
    (monoStep (F32.fin c) (F32.fin m) (F32.fin rr) (F32.fin g) (F32.fin u)).1 =
      F32.fin (g * rr + (1 - rr)) := by
  simp only [monoStep, F32.mul_fin_fin, F32.fabs_fin]
  rw [target_fin_eq_of_le c (|u * m|) hu, if_neg (by simpa using hg)]
  simp

theorem indepStep_under_ceiling_gch0 (c m rr g : ℝ) (gch1 : F32) (u v : ℝ)
    (hu : |u * m| ≤ c) (hg : ¬ (1 : ℝ) < g) :
    (indepStep (F32.fin c) (F32.fin m) (F32.fin rr) (F32.fin g) gch1
        (F32.fin u) (F32.fin v)).1.1 = F32.fin (g * rr + (1 - rr)) := by
  simp only [indepStep, F32.mul_fin_fin, F32.fabs_fin]
  rw [target_fin_eq_of_le c (|u * m|) hu, if_neg (by simpa using hg)]
  simp

/-- Claim C3 (amended): the three gain fields are initialized to `1.0`,
and every `process` call over a buffer of finite samples keeps each of
them strictly positive and at most `1`, for any state whose stored
configuration satisfies its own invariants (positive ceiling, release
coefficient in `(0,1)`, gains in `(0,1]`). The qualifier of the original
claim that this holds for non-finite samples as well is refuted by
`C3_gain_counterexample`: an infinite sample drives the gain to exactly
`0`. -/
theorem C3_gain_invariant (sr : F32) (l : Limiter) (input : List F32) (frames channels : ℕ)
    (c m rr gl g0 g1 : ℝ)
    (hc : l.ceiling_lin = F32.fin c) (hcpos : 0 < c)
    (hm : l.makeup_lin = F32.fin m)
    (hr : l.release_coeff = F32.fin rr) (hr0 : 0 < rr) (hr1 : rr < 1)
    (hgl : l.gain_linked = F32.fin gl) (hgl0 : 0 < gl) (hgl1 : gl ≤ 1)
    (hg0 : l.gain_ch0 = F32.fin g0) (hg00 : 0 < g0) (hg01 : g0 ≤ 1)
    (hg1 : l.gain_ch1 = F32.fin g1) (hg10 : 0 < g1) (hg11 : g1 ≤ 1)
    (hfin : ∀ x ∈ input, x.isFinite = true) :
    ((limiter_new sr).gain_linked = F32.fin 1 ∧ (limiter_new sr).gain_ch0 = F32.fin 1 ∧
      (limiter_new sr).gain_ch1 = F32.fin 1) ∧
    (∃ a : ℝ, (limiter_process_interleaved l input frames channels).1.gain_linked = F32.fin a ∧
      0 < a ∧ a ≤ 1) ∧
    (∃ a : ℝ, (limiter_process_interleaved l input frames channels).1.gain_ch0 = F32.fin a ∧
      0 < a ∧ a ≤ 1) ∧
    (∃ a : ℝ, (limiter_process_interleaved l input frames channels).1.gain_ch1 = F32.fin a ∧
      0 < a ∧ a ≤ 1) := by
  refine ⟨⟨rfl, rfl, rfl⟩, ?_⟩
  have htake : ∀ x ∈ input.take (frames * max (min channels 2) 1), x.isFinite = true :=
    fun x hx => hfin x (List.take_subset _ input hx)
  simp only [limiter_process_interleaved]
  by_cases hb : l.bypass ≠ 0
  · rw [if_pos hb]
    exact ⟨⟨gl, hgl, hgl0, hgl1⟩, ⟨g0, hg0, hg00, hg01⟩, ⟨g1, hg1, hg10, hg11⟩⟩
  · rw [if_neg hb]
    by_cases hs : l.stereo_link ≠ 0 ∧ max (min channels 2) 1 = 2
    · rw [if_pos hs]
      obtain ⟨a, ha, ha0, ha1⟩ := linkedLoop_gain_mem c m rr hcpos hr0 hr1 frames gl
        (input.take (frames * max (min channels 2) 1)) hgl0 hgl1 htake
      refine ⟨⟨a, ?_, ha0, ha1⟩, ⟨g0, hg0, hg00, hg01⟩, ⟨g1, hg1, hg10, hg11⟩⟩
      rw [show ({ l with gain_linked := (linkedLoop l.ceiling_lin l.makeup_lin l.release_coeff
          frames l.gain_linked (input.take (frames * max (min channels 2) 1))).1 } :
          Limiter).gain_linked = (linkedLoop l.ceiling_lin l.makeup_lin l.release_coeff
          frames l.gain_linked (input.take (frames * max (min channels 2) 1))).1 from rfl,
        hc, hm, hr, hgl]
      exact ha
    · rw [if_neg hs]
      by_cases hch : max (min channels 2) 1 = 1
      · rw [if_pos hch]
        obtain ⟨a, ha, ha0, ha1⟩ := monoLoop_gain_mem c m rr hcpos hr0 hr1 frames g0
          (input.take (frames * max (min channels 2) 1)) hg00 hg01 htake
        refine ⟨⟨gl, hgl, hgl0, hgl1⟩, ⟨a, ?_, ha0, ha1⟩, ⟨g1, hg1, hg10, hg11⟩⟩
        rw [show ({ l with gain_ch0 := (monoLoop l.ceiling_lin l.makeup_lin l.release_coeff
            frames l.gain_ch0 (input.take (frames * max (min channels 2) 1))).1 } :
            Limiter).gain_ch0 = (monoLoop l.ceiling_lin l.makeup_lin l.release_coeff
            frames l.gain_ch0 (input.take (frames * max (min channels 2) 1))).1 from rfl,
          hc, hm, hr, hg0]
        exact ha
      · rw [if_neg hch]
        obtain ⟨a, b, hab, ha0, ha1, hb0, hb1⟩ := indepLoop_gain_mem c m rr hcpos hr0 hr1
          frames g0 g1 (input.take (frames * max (min channels 2) 1)) hg00 hg01 hg10 hg11 htake
        rw [hc, hm, hr, hg0, hg1] at *
        refine ⟨⟨gl, hgl, hgl0, hgl1⟩, ⟨a, ?_, ha0, ha1⟩, ⟨b, ?_, hb0, hb1⟩⟩
        · show (indepLoop (F32.fin c) (F32.fin m) (F32.fin rr) frames (F32.fin g0, F32.fin g1)
            (input.take (frames * max (min channels 2) 1))).1.1 = F32.fin a
          rw [hab]
        · show (indepLoop (F32.fin c) (F32.fin m) (F32.fin rr) frames (F32.fin g0, F32.fin g1)
            (input.take (frames * max (min channels 2) 1))).1.2 = F32.fin b
          rw [hab]

theorem C3_gain_invariant_witness :
    ∃ a : ℝ,
      (limiter_process_interleaved
        { ceiling_lin := F32.fin (1 / 2), makeup_lin := F32.fin 1, release_coeff := F32.fin (1 / 2),
          bypass := 0, stereo_link := 1, gain_linked := F32.fin 1, gain_ch0 := F32.fin 1,
          gain_ch1 := F32.fin 1, sample_rate_hz := F32.fin 48000 }
        [F32.fin 2, F32.fin 2] 1 2).1.gain_linked = F32.fin a ∧ 0 < a ∧ a ≤ 1 :=
  (C3_gain_invariant (F32.fin 48000) _ [F32.fin 2, F32.fin 2] 1 2 (1 / 2) 1 (1 / 2) 1 1 1
    rfl (by norm_num) rfl rfl (by norm_num) (by norm_num) rfl (by norm_num) (by norm_num)
    rfl (by norm_num) (by norm_num) rfl (by norm_num) (by norm_num) (by simp)).2.1

/-- Claim C3 counterexample: with the default state constructed at 48 kHz
and a single stereo frame of two `+∞` samples, the makeup-scaled peak is
`+∞`, the limiting target `ceiling / ∞` is `0`, and the attack branch
stores it: `gain_linked` becomes exactly `0`, which is not strictly
positive, refuting the claim for non-finite samples. -/
theorem C3_gain_counterexample :
    (limiter_process_interleaved (limiter_new (F32.fin 48000))
      [F32.inf true, F32.inf true] 1 2).1.gain_linked = F32.fin 0 := by
  have hceil : db_to_lin (F32.fin (-3 / 10)) = F32.fin (Real.rpow 10 (-3 / 10 / 20)) := by
    unfold db_to_lin
    rw [F32.div_fin_fin _ _ (by norm_num : (20 : ℝ) ≠ 0)]
  simp only [limiter_process_interleaved, limiter_new, hceil]
  rw [if_neg (by norm_num), if_pos (show (1 : ℕ) ≠ 0 ∧ max (min 2 2) 1 = 2 by norm_num)]
  norm_num
  simp only [linkedLoop, List.getD_cons_zero, List.getD_cons_succ,
    linkedStep_inf_sets_gain_zero]

/-- Claim C4: after a reduction (gain strictly below 1), a frame whose
makeup-scaled magnitudes stay at or under the ceiling makes the relevant
gain value strictly increase while staying strictly below 1; since each
call applies the same recurrence frame by frame, a sustained
under-ceiling signal drives the gain monotonically up toward 1.0 without
ever exceeding it, in each of the three processing paths. -/
theorem C4_release_monotone (l : Limiter) (c m rr g x0 x1 : ℝ)
    (hb : l.bypass = 0) (hc : l.ceiling_lin = F32.fin c) (hm : l.makeup_lin = F32.fin m)
    (hr : l.release_coeff = F32.fin rr) (hr0 : 0 < rr) (hr1 : rr < 1)
    (hglt : g < 1) (h0 : |x0 * m| ≤ c) (h1 : |x1 * m| ≤ c) :
    (l.stereo_link ≠ 0 → l.gain_linked = F32.fin g →
      ∃ a : ℝ, (limiter_process_interleaved l [F32.fin x0, F32.fin x1] 1 2).1.gain_linked =
        F32.fin a ∧ g < a ∧ a < 1) ∧
    (l.gain_ch0 = F32.fin g →
      ∃ a : ℝ, (limiter_process_interleaved l [F32.fin x0] 1 1).1.gain_ch0 =
        F32.fin a ∧ g < a ∧ a < 1) ∧
    (l.stereo_link = 0 → l.gain_ch0 = F32.fin g →
      ∃ a : ℝ, (limiter_process_interleaved l [F32.fin x0, F32.fin x1] 1 2).1.gain_ch0 =
        F32.fin a ∧ g < a ∧ a < 1) := by
  have hgle : ¬ (1 : ℝ) < g := not_lt.2 hglt.le
  have hprod1 : (0 : ℝ) < (1 - rr) * (1 - g) := mul_pos (by linarith) (by linarith)
  have hprod2 : (0 : ℝ) < rr * (1 - g) := mul_pos hr0 (by linarith)
  have key1 : g < g * rr + (1 - rr) := by nlinarith [hprod1]
  have key2 : g * rr + (1 - rr) < 1 := by nlinarith [hprod2]
  refine ⟨?_, ?_, ?_⟩
  · intro hs hgl
    refine ⟨g * rr + (1 - rr), ?_, key1, key2⟩
    simp only [limiter_process_interleaved]
    rw [if_neg (by simp [hb]), if_pos (show l.stereo_link ≠ 0 ∧ max (min 2 2) 1 = 2
      from ⟨hs, by norm_num⟩)]
    rw [hc, hm, hr, hgl, show (1 * max (min 2 2) 1) = 2 by norm_num,
      show [F32.fin x0, F32.fin x1].take 2 = [F32.fin x0, F32.fin x1] from rfl]
    simp only [linkedLoop, List.getD_cons_zero, List.getD_cons_succ]
    rw [linkedStep_under_ceiling c m rr g x0 x1 h0 h1 hgle]
  · intro hg0
    refine ⟨g * rr + (1 - rr), ?_, key1, key2⟩
    simp only [limiter_process_interleaved]
    rw [if_neg (by simp [hb]), if_neg (fun h => by norm_num at h), if_pos (show
      max (min 1 2) 1 = 1 by norm_num)]
    rw [hc, hm, hr, hg0, show (1 * max (min 1 2) 1) = 1 by norm_num,
      show [F32.fin x0].take 1 = [F32.fin x0] from rfl]
    simp only [monoLoop, List.getD_cons_zero]
    rw [monoStep_under_ceiling c m rr g x0 h0 hgle]
  · intro hs0 hg0
    refine ⟨g * rr + (1 - rr), ?_, key1, key2⟩
    simp only [limiter_process_interleaved]
    rw [if_neg (by simp [hb]), if_neg (fun h => absurd hs0 h.1),
      if_neg (show ¬ max (min 2 2) 1 = 1 by norm_num)]
    rw [hc, hm, hr, hg0, show (1 * max (min 2 2) 1) = 2 by norm_num,
      show [F32.fin x0, F32.fin x1].take 2 = [F32.fin x0, F32.fin x1] from rfl]
    simp only [indepLoop, List.getD_cons_zero, List.getD_cons_succ]
    rw [indepStep_under_ceiling_gch0 c m rr g l.gain_ch1 x0 x1 h0 hgle]

theorem C4_release_monotone_witness :
    ∃ a : ℝ,
      (limiter_process_interleaved
        { ceiling_lin := F32.fin 1, makeup_lin := F32.fin 1, release_coeff := F32.fin (1 / 2),
          bypass := 0, stereo_link := 1, gain_linked := F32.fin (1 / 2), gain_ch0 := F32.fin (1 / 2),
          gain_ch1 := F32.fin (1 / 2), sample_rate_hz := F32.fin 48000 }
        [F32.fin (1 / 2), F32.fin (1 / 2)] 1 2).1.gain_linked = F32.fin a ∧
      (1 / 2 : ℝ) < a ∧ a < 1 :=
  (C4_release_monotone _ 1 1 (1 / 2) (1 / 2) (1 / 2) (1 / 2) rfl rfl rfl rfl (by norm_num)
    (by norm_num) (by norm_num) (by norm_num [abs_of_nonneg])
    (by norm_num [abs_of_nonneg])).1 (by norm_num) rfl

theorem limiter_new_ceiling (sr : F32) :
    (limiter_new sr).ceiling_lin = F32.fin (Real.rpow 10 (-3 / 10 / 20)) := by
  show db_to_lin (F32.fin (-3 / 10)) = _
  unfold db_to_lin
  rw [F32.div_fin_fin _ _ (by norm_num : (20 : ℝ) ≠ 0)]

theorem log_ten_bounds : 2.302 < Real.log 10 ∧ Real.log 10 < 2.303 := by
  have habs := @Real.abs_log_sub_add_sum_range_le (1 / 5 : ℝ)
    (by rw [show |(1 / 5 : ℝ)| = 1 / 5 from abs_of_pos (by norm_num)]; norm_num) 5
  have hsum : (∑ i ∈ Finset.range 5, (1 / 5 : ℝ) ^ (i + 1) / (i + 1)) = 41837 / 187500 := by
    rw [Finset.sum_range_succ, Finset.sum_range_succ, Finset.sum_range_succ,
      Finset.sum_range_succ, Finset.sum_range_succ, Finset.sum_range_zero]
    norm_num
  rw [hsum, show (1 : ℝ) - 1 / 5 = 4 / 5 by norm_num,
    show |(1 / 5 : ℝ)| ^ (5 + 1) / (1 - |(1 / 5 : ℝ)|) = 1 / 12500 by
      rw [show |(1 / 5 : ℝ)| = 1 / 5 from abs_of_pos (by norm_num)]
      norm_num] at habs
  have hb := abs_le.1 habs
  have hlog54 : Real.log (5 / 4) = -Real.log (4 / 5) := by
    rw [show (5 / 4 : ℝ) = (4 / 5)⁻¹ by norm_num, Real.log_inv]
  have h10 : Real.log 10 = 3 * Real.log 2 + Real.log (5 / 4) := by
    rw [show (10 : ℝ) = 2 ^ 3 * (5 / 4) by norm_num,
      Real.log_mul (by norm_num) (by norm_num), Real.log_pow]
    norm_num
  have h2lo := Real.log_two_gt_d9
  have h2hi := Real.log_two_lt_d9
  constructor
  · rw [h10, hlog54]
    linarith [hb.2]
  · rw [h10, hlog54]
    linarith [hb.1]

theorem ceiling_default_bounds :
    0.96505 < Real.rpow 10 (-3 / 10 / 20) ∧ Real.rpow 10 (-3 / 10 / 20) < 0.96705 := by
  obtain ⟨hl, hu⟩ := log_ten_bounds
  have hrw : Real.rpow 10 (-3 / 10 / 20) = Real.exp (Real.log 10 * (-3 / 10 / 20)) :=
    Real.rpow_def_of_pos (by norm_num) _
  have ht1 : Real.log 10 * (-3 / 10 / 20) = -(3 / 200 * Real.log 10) := by ring
  rw [hrw, ht1]
  have htlo : (0.03453 : ℝ) < 3 / 200 * Real.log 10 := by linarith
  have hthi : (3 : ℝ) / 200 * Real.log 10 < 0.034545 := by linarith
  constructor
  · have h1 := Real.add_one_le_exp (-(3 / 200 * Real.log 10))
    linarith
  · rw [Real.exp_neg]
    have hexp : (1.03453 : ℝ) < Real.exp (3 / 200 * Real.log 10) := by
      have h2 := Real.add_one_le_exp (3 / 200 * Real.log 10)
      linarith
    calc (Real.exp (3 / 200 * Real.log 10))⁻¹ ≤ (1.03453 : ℝ)⁻¹ :=
        inv_anti₀ (by norm_num) hexp.le
      _ < 0.96705 := by norm_num

theorem linkedStep_attack (c m g u v : ℝ) (rel : F32) (hc : 0 < c)
    (hpeak : c < max |u * m| |v * m|) (htar : c / max |u * m| |v * m| < g) :
    linkedStep (F32.fin c) (F32.fin m) rel (F32.fin g) (F32.fin u) (F32.fin v) =
      (F32.fin (c / max |u * m| |v * m|),
       F32.fin (u * m * (c / max |u * m| |v * m|)),
       F32.fin (v * m * (c / max |u * m| |v * m|))) := by
  simp only [linkedStep, F32.mul_fin_fin, F32.fabs_fin, F32.fmax_fin_fin]
  rw [target_fin_eq c (max (|u * m|) (|v * m|)) hc]
  simp only [targetReal]
  rw [if_pos hpeak]
  rw [if_pos (show F32.flt (F32.fin (c / max (|u * m|) (|v * m|))) (F32.fin g) = true from by
    simpa using htar)]
  simp

/-- Claim C1: for the default limiter constructed at 48 kHz, processing
the single stereo frame `[2.0, 2.0]` sets `gain_linked` to
`ceiling_lin / 2` and writes `[ceiling_lin, ceiling_lin]`, where
`ceiling_lin` is within `0.001` of `0.96605` (so the gain is within
`0.001` of `0.48303`); and in general, on any frame whose makeup-scaled
peak exceeds the ceiling with target `ceiling / peak` below the current
gain, the linked gain is set to `ceiling / peak` immediately and the
louder channel's output magnitude is exactly the ceiling (exactly, since
real arithmetic models the float operations). -/
theorem C1_attack_scenario :
    (∃ c : ℝ, (limiter_new (F32.fin 48000)).ceiling_lin = F32.fin c ∧
      |c - 0.96605| < 1 / 1000 ∧
      (limiter_process_interleaved (limiter_new (F32.fin 48000))
        [F32.fin 2, F32.fin 2] 1 2).1.gain_linked = F32.fin (c / 2) ∧
      (limiter_process_interleaved (limiter_new (F32.fin 48000))
        [F32.fin 2, F32.fin 2] 1 2).2 = [F32.fin c, F32.fin c]) ∧
    (∀ (l : Limiter) (c m g x0 x1 : ℝ), l.bypass = 0 → l.stereo_link ≠ 0 →
      l.ceiling_lin = F32.fin c → l.makeup_lin = F32.fin m → l.gain_linked = F32.fin g →
      0 < c → c < max |x0 * m| |x1 * m| → c / max |x0 * m| |x1 * m| < g →
      (limiter_process_interleaved l [F32.fin x0, F32.fin x1] 1 2).1.gain_linked =
        F32.fin (c / max |x0 * m| |x1 * m|) ∧
      (limiter_process_interleaved l [F32.fin x0, F32.fin x1] 1 2).2 =
        [F32.fin (x0 * m * (c / max |x0 * m| |x1 * m|)),
         F32.fin (x1 * m * (c / max |x0 * m| |x1 * m|))] ∧
      max |x0 * m * (c / max |x0 * m| |x1 * m|)| |x1 * m * (c / max |x0 * m| |x1 * m|)| = c) := by
  have hgen : ∀ (l : Limiter) (c m g x0 x1 : ℝ), l.bypass = 0 → l.stereo_link ≠ 0 →
      l.ceiling_lin = F32.fin c → l.makeup_lin = F32.fin m → l.gain_linked = F32.fin g →
      0 < c → c < max |x0 * m| |x1 * m| → c / max |x0 * m| |x1 * m| < g →
      (limiter_process_interleaved l [F32.fin x0, F32.fin x1] 1 2).1.gain_linked =
        F32.fin (c / max |x0 * m| |x1 * m|) ∧
      (limiter_process_interleaved l [F32.fin x0, F32.fin x1] 1 2).2 =
        [F32.fin (x0 * m * (c / max |x0 * m| |x1 * m|)),
         F32.fin (x1 * m * (c / max |x0 * m| |x1 * m|))] ∧
      max |x0 * m * (c / max |x0 * m| |x1 * m|)| |x1 * m * (c / max |x0 * m| |x1 * m|)| = c := by
    intro l c m g x0 x1 hb hs hc hm hgl hc0 hpk htr
    have hp0 : (0 : ℝ) < max |x0 * m| |x1 * m| := hc0.trans hpk
    have ht0 : (0 : ℝ) < c / max |x0 * m| |x1 * m| := div_pos hc0 hp0
    have hproc : limiter_process_interleaved l [F32.fin x0, F32.fin x1] 1 2 =
        ({ l with gain_linked := F32.fin (c / max |x0 * m| |x1 * m|) },
         [F32.fin (x0 * m * (c / max |x0 * m| |x1 * m|)),
          F32.fin (x1 * m * (c / max |x0 * m| |x1 * m|))]) := by
      simp only [limiter_process_interleaved]
      rw [if_neg (by simp [hb]), if_pos (show l.stereo_link ≠ 0 ∧ max (min 2 2) 1 = 2
        from ⟨hs, by norm_num⟩)]
      rw [hc, hm, hgl, show (1 * max (min 2 2) 1) = 2 by norm_num,
        show [F32.fin x0, F32.fin x1].take 2 = [F32.fin x0, F32.fin x1] from rfl]
      simp only [linkedLoop, List.getD_cons_zero, List.getD_cons_succ]
      rw [linkedStep_attack c m g x0 x1 l.release_coeff hc0 hpk htr]
    rw [hproc]
    refine ⟨rfl, rfl, ?_⟩
    rw [abs_mul (x0 * m) _, abs_mul (x1 * m) _, abs_of_pos ht0,
      ← max_mul_of_nonneg _ _ ht0.le]
    field_simp
  refine ⟨?_, hgen⟩
  obtain ⟨hblo, hbhi⟩ := ceiling_default_bounds
  have hmax2 : max |(2 : ℝ) * 1| |(2 : ℝ) * 1| = 2 := by
    rw [show |(2 : ℝ) * 1| = 2 by rw [abs_of_pos] <;> norm_num]
    norm_num
  have h := hgen (limiter_new (F32.fin 48000)) (Real.rpow 10 (-3 / 10 / 20)) 1 1 2 2 rfl
    (by norm_num [limiter_new]) (limiter_new_ceiling _) rfl rfl
    (Real.rpow_pos_of_pos (by norm_num) _) (by rw [hmax2]; linarith) (by rw [hmax2]; linarith)
  refine ⟨Real.rpow 10 (-3 / 10 / 20), limiter_new_ceiling _, ?_, ?_, ?_⟩
  · rw [abs_sub_lt_iff]
    constructor <;> linarith
  · have h1 := h.1
    rw [hmax2] at h1
    exact h1
  · have h2 := h.2.1
    rw [hmax2, show (2 : ℝ) * 1 * (Real.rpow 10 (-3 / 10 / 20) / 2) =
      Real.rpow 10 (-3 / 10 / 20) by ring] at h2
    exact h2

theorem C1_attack_scenario_witness :
    (limiter_process_interleaved
      { ceiling_lin := F32.fin (1 / 2), makeup_lin := F32.fin 1, release_coeff := F32.fin (1 / 2),
        bypass := 0, stereo_link := 1, gain_linked := F32.fin 1, gain_ch0 := F32.fin 1,
        gain_ch1 := F32.fin 1, sample_rate_hz := F32.fin 48000 }
      [F32.fin 2, F32.fin 2] 1 2).1.gain_linked =
      F32.fin ((1 / 2) / max |(2 : ℝ) * 1| |(2 : ℝ) * 1|) :=
  ((C1_attack_scenario).2 _ (1 / 2) 1 1 2 2 rfl (by norm_num) rfl rfl rfl (by norm_num)
    (by rw [show |(2 : ℝ) * 1| = 2 by rw [abs_of_pos] <;> norm_num]; norm_num)
    (by rw [show |(2 : ℝ) * 1| = 2 by rw [abs_of_pos] <;> norm_num]; norm_num)).1
